import Mathlib

/-!
# Verification of the junefeed core: feed merge engine and list navigator

Shallow embedding of `src/junefeed/feed.py` (Entry, EntryCollection,
refresh/cache) and `src/junefeed/app.py` (EntryCollectionScreen: movement,
highlighting, mark-read, read-filter toggling), with theorems settling the
spec's testable properties.

Python `int` indices are modelled as `Int`; Python list indexing semantics
(negative wrap-around, `IndexError` on out-of-range) are modelled explicitly.
Operations that can raise are modelled with `Option` (`none` = exception).
-/

namespace Junefeed

/-- One feed item, mirroring `Entry.__init__`'s stored attributes
(`feed`, `title`, `summary`, `link`, `date`, `is_read`).  `Entry.__eq__`
is field-wise equality, i.e. `DecidableEq`. -/
structure Entry where
  feed : String
  title : String
  summary : String
  link : String
  date : String
  is_read : Bool
deriving DecidableEq, Repr

/-- Placeholder entry used for total `getD`-style list indexing in the model;
never observable through in-range accesses. -/
def dEntry : Entry := ⟨"", "", "", "", "", false⟩

instance : Inhabited Entry := ⟨dEntry⟩

/-- Whether the second char list starts with the first. -/
def startsWithL : List Char → List Char → Bool
  | [], _ => true
  | _ :: _, [] => false
  | a :: as, b :: bs => a = b && startsWithL as bs

/-- Whether the first char list occurs contiguously in the second. -/
def containsL (sub : List Char) : List Char → Bool
  | [] => sub.isEmpty
  | c :: rest => startsWithL sub (c :: rest) || containsL sub rest

/-- Substring test: `sub in s` on Python strings. -/
def hasSub (s sub : String) : Bool := containsL sub.data s.data

/-- Python `str.strip()`: drop whitespace from both ends. -/
def pyStrip (s : String) : String :=
  ⟨(((s.data.dropWhile Char.isWhitespace).reverse).dropWhile Char.isWhitespace).reverse⟩

/-- `Entry._parse_html`: if the data does not contain both `"<"` and `"</"`
it is returned unchanged; otherwise it is run through the HTML-to-text
converter (`RSSEntryParser`, built on the external `html.parser` library,
which the model takes as an explicit function parameter `extract`). -/
def parse_html (extract : String → String) (data : String) : String :=
  if hasSub data "<" && hasSub data "</" then extract data else data

/-- The summary cleaning performed by `Entry.__init__`:
`self._parse_html(summary).strip()`. -/
def clean_summary (extract : String → String) (s : String) : String :=
  pyStrip (parse_html extract s)

/-- `Entry.__init__`: stores all fields verbatim except `summary`, which is
HTML-converted and stripped. -/
def Entry.init (extract : String → String) (feed title summary link date : String)
    (is_read : Bool) : Entry :=
  ⟨feed, title, clean_summary extract summary, link, date, is_read⟩

/-- One persisted JSON record (the §6 record shape).  `feed` and `title` are
mandatory (`entry['feed']`, `entry['title']`); the rest are optional with
defaults applied on load. -/
structure JsonEntry where
  feed : String
  title : String
  summary : Option String
  link : Option String
  date : Option String
  is_read : Option Bool
deriving DecidableEq, Repr

/-- `Entry.from_json_obj`: read the record, defaulting `summary`/`link`/
`date` to `""` and `is_read` to `False`, then construct via `__init__`. -/
def Entry.from_json_obj (extract : String → String) (j : JsonEntry) : Entry :=
  Entry.init extract j.feed j.title (j.summary.getD "") (j.link.getD "")
    (j.date.getD "") (j.is_read.getD false)

/-- `Entry.json_serialize`: all six fields, present. -/
def Entry.json_serialize (e : Entry) : JsonEntry :=
  ⟨e.feed, e.title, some e.summary, some e.link, some e.date, some e.is_read⟩

/-- `EntryCollection.cache_entries`: serialize every entry, in collection
order.  (The JSON text encoding itself is the external `json` library and is
modelled as the identity on record lists.) -/
def cache_entries (c : List Entry) : List JsonEntry :=
  c.map Entry.json_serialize

/-- `EntryCollection.from_cached`: deserialize the persisted record list in
order via `Entry.from_json_obj`. -/
def from_cached (extract : String → String) (js : List JsonEntry) : List Entry :=
  js.map (Entry.from_json_obj extract)

/-! ## refresh -/

/-- The inner loop of `EntryCollection.refresh` for one feed's batch:
`for entry in feed_entries[::-1]: if entry.title in cached_entry_titles:
continue; self.entries.insert(0, entry)`. -/
def refreshStep (known : List String) (batch : List Entry) (cur : List Entry) :
    List Entry :=
  batch.reverse.foldl (fun acc e => if e.title ∈ known then acc else e :: acc) cur

/-- The feed loop of `refresh`.  A fetch failure (`Feed.get_entries` raising)
propagates: the loop stops, later feeds are not fetched, and the collection
keeps the entries merged so far (it is mutated in place).  The pair returned
is (raised error if any, resulting collection). -/
def refreshGo (fetch : String → String → Except String (List Entry))
    (known : List String) :
    List (String × String) → List Entry → Option String × List Entry
  | [], cur => (none, cur)
  | (name, url) :: rest, cur =>
    match fetch name url with
    | Except.error e => (some e, cur)
    | Except.ok batch => refreshGo fetch known rest (refreshStep known batch cur)

/-- `EntryCollection.refresh`: capture the pre-refresh title list, then merge
each configured feed in configuration order. -/
def refresh (fetch : String → String → Except String (List Entry))
    (feeds : List (String × String)) (entries : List Entry) :
    Option String × List Entry :=
  refreshGo fetch (entries.map (fun e => e.title)) feeds entries

/-! ## EntryCollectionScreen (the list navigator) -/

/-- Rendered content of one `Static` widget in the entry list.  `Entry.oneliner`
produces two visually distinct forms depending on its `highlighted` flag
(different colour markup in every case), modelled as the two constructors. -/
inductive WContent where
  | wdefault : Entry → WContent
  | wcurrent : Entry → WContent
deriving DecidableEq, Repr

/-- Placeholder widget content for total `getD` indexing. -/
def dW : WContent := WContent.wdefault dEntry

/-- Positions (into the backing entry list) of the unread entries, in order.
This models the identity sharing between `visible_entries` and
`entry_collection`: the screen's visible list holds the same `Entry` objects,
here represented by their backing indices. -/
def unreadIdxs : List Entry → List Nat
  | [] => []
  | e :: rest =>
    if e.is_read then (unreadIdxs rest).map (· + 1)
    else 0 :: (unreadIdxs rest).map (· + 1)

/-- Backing positions of the visible entries: the whole collection when
`display_read`, otherwise only the unread ones
(`[e for e in self.entry_collection if not e.is_read]`). -/
def visibleIdxs (es : List Entry) (display_read : Bool) : List Nat :=
  if display_read then List.range es.length else unreadIdxs es

/-- Normalize a Python list index: non-negative indices as-is, negative ones
from the end (`l[-1]` is the last element).  Callers check range. -/
def pyNorm (len : Nat) (i : Int) : Nat :=
  if 0 ≤ i then i.toNat else len - (-i).toNat

/-- Python `l[i] = a`.  Out-of-range assignment raises in Python; in the model
`List.set` out of range is the identity — all modelled writes are in range. -/
def pySetL {α : Type} (l : List α) (i : Int) (a : α) : List α :=
  l.set (pyNorm l.length i) a

/-- Python `l.pop(i)` (also the explicitly bounds-checked
`EntryCollection.pop`): `none` models the `IndexError` raised when
`i ≥ len` or `i < -len`. -/
def pyPop {α : Type} (l : List α) (i : Int) : Option (List α) :=
  if (l.length : Int) ≤ i then none
  else if i < -(l.length : Int) then none
  else some (l.eraseIdx (pyNorm l.length i))

/-- State of an `EntryCollectionScreen`:
the backing `entry_collection.entries`, the `display_read` flag, the visible
projection (as backing positions, capturing object sharing), the rendered
widget list, and the cursor `idx` (a Python `int`, so `Int`). -/
structure ECScreen where
  entries : List Entry
  display_read : Bool
  visible : List Nat
  widgets : List WContent
  idx : Int
deriving DecidableEq, Repr

/-- The entry at position `k` of the visible projection. -/
def visEntry (s : ECScreen) (k : Nat) : Entry :=
  s.entries.getD (s.visible.getD k 0) dEntry

/-- `EntryCollectionScreen.__init__` followed by `compose`'s
`build_widgets`: visible projection computed from the collection and filter,
all widgets rendered in the default (non-highlighted) style. -/
def ECScreen.build (es : List Entry) (display_read : Bool) (i : Int) : ECScreen :=
  let vis := visibleIdxs es display_read
  ⟨es, display_read, vis,
    vis.map (fun k => WContent.wdefault (es.getD k dEntry)), i⟩

/-- `EntryCollectionScreen.__getitem__`: `None` when the visible list is
empty or `idx ≥ len(visible)`; otherwise raw Python list indexing, which
wraps negative indices in `[-len, -1]` and raises below `-len` (the final
`none`; never reached by the modelled operations). -/
def getEntryAt (s : ECScreen) (i : Int) : Option Entry :=
  if s.visible.length = 0 then none
  else if (s.visible.length : Int) ≤ i then none
  else if -(s.visible.length : Int) ≤ i then
    some (visEntry s (pyNorm s.visible.length i))
  else none

/-- The tether of `highlight_current`: `if self.idx < 0: self.idx = 0`,
`elif self.idx >= self.nwidgets - 1: self.idx = self.nwidgets - 1`. -/
def clampIdx (n : Nat) (i : Int) : Int :=
  if i < 0 then 0 else if (n : Int) - 1 ≤ i then (n : Int) - 1 else i

/-- The re-rendering half of `highlight_current` (after the tether): set the
widget at `idx` to the current style, then the widgets at `idx - 1` and
`idx + 1` — for those neighbours whose entry lookup is not `None` — to the
default style, in that order.  Note that at `idx = 0` the `idx - 1` lookup
is `self[-1]`, the *last* visible entry, and the corresponding write goes to
`widgets[-1]`, the last widget.  (`current_entry` would raise when its
lookup is `None`; that needs `len(widgets) ≠ len(visible)`, which no
reachable screen has — the model then returns the state unchanged.) -/
def hlWrites (t : ECScreen) : ECScreen :=
  match getEntryAt t t.idx with
  | none => t
  | some cur =>
    let w1 := pySetL t.widgets t.idx (WContent.wcurrent cur)
    let w2 := match getEntryAt t (t.idx - 1) with
      | some a => pySetL w1 (t.idx - 1) (WContent.wdefault a)
      | none => w1
    let w3 := match getEntryAt t (t.idx + 1) with
      | some b => pySetL w2 (t.idx + 1) (WContent.wdefault b)
      | none => w2
    { t with widgets := w3 }

/-- `EntryCollectionScreen.highlight_current`: no-op when there are no
widgets (`if self.nwidgets == 0: return`); otherwise tether `idx` into
`[0, nwidgets - 1]` and re-render the current slot and its neighbours. -/
def highlight_current (s : ECScreen) : ECScreen :=
  if s.widgets.length = 0 then s
  else hlWrites { s with idx := clampIdx s.widgets.length s.idx }

/-- The two cursor movements of `EntryCollectionScreen.on_key`. -/
inductive Move where
  | down
  | up
deriving DecidableEq, Repr

/-- `on_key`: `j` does `idx += 1`, `k` does `idx -= 1`, each followed by
`highlight_current` (the viewport scroll that follows touches no modelled
state). -/
def on_key_move (m : Move) (s : ECScreen) : ECScreen :=
  match m with
  | Move.down => highlight_current { s with idx := s.idx + 1 }
  | Move.up => highlight_current { s with idx := s.idx - 1 }

/-- A finite sequence of key presses. -/
def runMoves (s : ECScreen) (ms : List Move) : ECScreen :=
  ms.foldl (fun t m => on_key_move m t) s

/-- `EntryCollectionScreen.mark_read`: fetch the current entry (`none` models
the `ValueError` when there is none), set its `is_read` flag (a mutation of
the shared object, hence applied at its backing position); in `display_read`
mode just re-render its widget, otherwise pop its widget and its visible slot
and re-highlight. -/
def mark_read (s : ECScreen) : Option ECScreen :=
  match getEntryAt s s.idx with
  | none => none
  | some cur =>
    let b := s.visible.getD (pyNorm s.visible.length s.idx) 0
    let es' := s.entries.set b { cur with is_read := true }
    if s.display_read then
      let w' := pySetL s.widgets s.idx (WContent.wdefault { cur with is_read := true })
      some (highlight_current { s with entries := es', widgets := w' })
    else
      match pyPop s.widgets s.idx, pyPop s.visible s.idx with
      | some w', some v' =>
        some (highlight_current
          { s with entries := es', widgets := w', visible := v' })
      | _, _ => none

/-! ### toggle_read (`Junefeed.toggle_read`) -/

/-- Number of read entries among the first `n` of the collection. -/
def countReadTake (es : List Entry) (n : Nat) : Nat :=
  ((es.take n).filter (fun e => e.is_read)).length

/-- The show-read → hide-read index shift:
`for j in range(new_idx + 1): if entries[j].is_read: num_hidden -= 1`.
`none` models the `IndexError` when the loop reaches `j = len(entries)`. -/
def hideShift (es : List Entry) (i : Int) : Option Int :=
  if i < 0 then some i
  else if (es.length : Int) ≤ i then none
  else some (i - (countReadTake es (i.toNat + 1) : Nat))

/-- Length of the leading read-run of a list, as walked by
`while entries[k].is_read: num_hidden += 1; k += 1`: `none` models the
`IndexError` raised when the run reaches the end of the collection. -/
def leadingRead : List Entry → Option Nat
  | [] => none
  | e :: rest => if e.is_read then (leadingRead rest).map (· + 1) else some 0

/-- The hide-read → show-read while-loop of `toggle_read`, on the suffix of
the collection starting at position `j`; `ni` is `new_idx`.  Each read-run at
or before `ni` adds its length to both `j` and `ni`; unread entries advance
`j` alone.  `none` models the `IndexError` cases (`entries[j]` with the
suffix exhausted, or a read-run reaching the end).  The first argument is
recursion fuel: every iteration of the source's while loop advances `j`
past at least one element of the suffix, so `length + 1` fuel (as passed by
`showLoopGo`) is never exhausted. -/
def showLoopFuel : Nat → List Entry → Int → Int → Option Int
  | 0, _, _, _ => none
  | fuel + 1, l, j, ni =>
    if ni < j then some ni
    else
      match l with
      | [] => none
      | e :: rest =>
        if e.is_read then
          match leadingRead rest with
          | none => none
          | some r =>
            showLoopFuel fuel (rest.drop r) (j + ((r : Int) + 1)) (ni + ((r : Int) + 1))
        else
          showLoopFuel fuel rest (j + 1) ni

/-- The hide-read → show-read remapping loop of `toggle_read`, started at
`j = 0` over the whole collection. -/
def showLoopGo (l : List Entry) (j ni : Int) : Option Int :=
  showLoopFuel (l.length + 1) l j ni

/-- `Junefeed.toggle_read`: compute the remapped index for the flipped
filter, construct the replacement screen, and mount it (which runs
`highlight_current`).  `none` models the `IndexError` crashes of the
remapping loops. -/
def toggle_read (s : ECScreen) : Option ECScreen :=
  match (if s.display_read then hideShift s.entries s.idx
         else showLoopGo s.entries 0 s.idx) with
  | none => none
  | some ni => some (highlight_current (ECScreen.build s.entries (!s.display_read) ni))

/-! ### Well-formedness and rendering classification -/

/-- Screens produced by the app: widgets mirror the visible projection
one-for-one, and every visible slot points into the backing collection. -/
def ECScreen.WF (s : ECScreen) : Prop :=
  s.widgets.length = s.visible.length ∧ ∀ k ∈ s.visible, k < s.entries.length

/-- Whether a widget shows the highlighted ("current") rendering. -/
def isCur : WContent → Bool
  | WContent.wcurrent _ => true
  | WContent.wdefault _ => false

/-- Number of widgets rendered in the "current" state. -/
def countCurrent (s : ECScreen) : Nat :=
  (s.widgets.filter isCur).length

/-- The widget slot actually written by the `idx - 1` neighbour update of
`highlight_current`: slot `idx - 1`, except that at `idx = 0` the write to
`widgets[-1]` wraps to the last slot. -/
def aboveSlot (t : ECScreen) : Nat :=
  if t.idx = 0 then t.visible.length - 1 else t.idx.toNat - 1

/-- Fully-rendered screen shape maintained by `highlight_current` between
key presses (for screens with at least two visible entries): the cursor is
in bounds, the widget under the cursor is highlighted, every other widget
shows the default rendering of its own entry. -/
def rendered (s : ECScreen) : Prop :=
  s.widgets.length = s.visible.length ∧ 0 ≤ s.idx ∧ s.idx < (s.visible.length : Int) ∧
  ∀ k, k < s.visible.length →
    s.widgets.getD k dW =
      (if (k : Int) = s.idx then WContent.wcurrent (visEntry s k)
       else WContent.wdefault (visEntry s k))

/-! ## Concrete instances used by witnesses and counterexamples -/

/-- A fresh unread entry with the given title. -/
def mkU (t : String) : Entry := ⟨"f", t, "", "", "", false⟩

/-- A read entry with the given title. -/
def mkR (t : String) : Entry := ⟨"f", t, "", "", "", true⟩

def eA1 : Entry := mkU "a1"

def eA2 : Entry := mkU "a2"

def eB1 : Entry := mkU "b1"

def eB2 : Entry := mkU "b2"

def eOld : Entry := mkU "old"

/-- Two-feed fetch: feed "A" yields `[a1, a2]`, any other feed `[b1, b2]`,
both newest-first. -/
def fetchC1 : String → String → Except String (List Entry) :=
  fun n _ => if n = "A" then Except.ok [eA1, eA2] else Except.ok [eB1, eB2]

/-- Two distinct entries sharing one title, both in a single fetched batch. -/
def eDup1 : Entry := ⟨"f", "dup", "", "", "", false⟩

def eDup2 : Entry := ⟨"g", "dup", "x", "", "", false⟩

def fetchC2 : String → String → Except String (List Entry) :=
  fun _ _ => Except.ok [eDup1, eDup2]

/-- Fetch where feed "A" fails and feed "B" succeeds with a fresh entry. -/
def fetchC3 : String → String → Except String (List Entry) :=
  fun n _ => if n = "A" then Except.error "boom" else Except.ok [eB1]

/-- An entry whose summary has leading whitespace (such a value arises from
direct field assignment, as the repository's tests perform; summaries that
still contain `"<"` and `"</"` arise from `<script>` bodies). -/
def badE : Entry := ⟨"nature", "t", " x", "l", "d", false⟩

/-- The entry of the repository's test fixtures. -/
def entryT : Entry :=
  ⟨"nature", "test", "abstract goes here", "www.nature.com", "15/07/2025", true⟩

/-- The navigator demo collection: unread, read, unread (so the hide-read
screen has visible slots `[0, 2]`). -/
def esNav : List Entry := [mkU "u0", mkR "r1", mkU "u2"]

/-- Hide-read navigator screen over `esNav`, cursor at the top. -/
def sNav : ECScreen := ECScreen.build esNav false 0

/-- Two-unread-entry collection for rendering witnesses. -/
def esTwo : List Entry := [mkU "x", mkU "y"]

/-- Single-unread-entry collection for the highlight counterexample. -/
def esOne : List Entry := [mkU "only"]

/-- Show-read screen over `[read, unread]` with the cursor on the read
entry: the toggle-twice counterexample state. -/
def esRU : List Entry := [mkR "r", mkU "u"]

/-! ## List helper lemmas -/

theorem getD_set_self {α : Type} (l : List α) (i : Nat) (a d : α)
    (h : i < l.length) : (l.set i a).getD i d = a := by
  induction l generalizing i with
  | nil => simp at h
  | cons x xs ih =>
    cases i with
    | zero => simp
    | succ n => simpa using ih n (by simpa using h)

theorem getD_set_other {α : Type} (l : List α) (i j : Nat) (a d : α)
    (h : i ≠ j) : (l.set i a).getD j d = l.getD j d := by
  induction l generalizing i j with
  | nil => simp
  | cons x xs ih =>
    cases i with
    | zero => cases j with
      | zero => exact absurd rfl h
      | succ m => simp
    | succ n => cases j with
      | zero => simp
      | succ m => simpa using ih n m (by omega)

theorem getD_map_lt {α β : Type} (f : α → β) (l : List α) (k : Nat) (d : β)
    (d' : α) (h : k < l.length) : (l.map f).getD k d = f (l.getD k d') := by
  induction l generalizing k with
  | nil => simp at h
  | cons x xs ih =>
    cases k with
    | zero => simp
    | succ n => simpa using ih n (by simpa using h)

theorem getD_mem_of_lt {α : Type} (l : List α) (k : Nat) (d : α)
    (h : k < l.length) : l.getD k d ∈ l := by
  induction l generalizing k with
  | nil => simp at h
  | cons x xs ih =>
    cases k with
    | zero => simp
    | succ n => exact List.mem_cons_of_mem x (ih n (by simpa using h))

theorem foldl_ins_eq (known : List String) (l acc : List Entry) :
    l.foldl (fun a e => if e.title ∈ known then a else e :: a) acc =
      (l.filter (fun e => !(decide (e.title ∈ known)))).reverse ++ acc := by
  induction l generalizing acc with
  | nil => simp
  | cons e l ih =>
    by_cases h : e.title ∈ known
    · simp [List.foldl_cons, h, ih]
    · simp [List.foldl_cons, h, ih (e :: acc)]

/-! ## refresh lemmas -/

/-- The per-feed merge prepends the batch's fresh entries in batch order. -/
theorem refreshStep_eq (known : List String) (batch cur : List Entry) :
    refreshStep known batch cur =
      batch.filter (fun e => !(decide (e.title ∈ known))) ++ cur := by
  unfold refreshStep
  rw [foldl_ins_eq known]
  rw [← List.filter_reverse, List.reverse_reverse]

/-- Whatever the fetches do, `refreshGo` only prepends entries whose titles
are not in the captured known-title list. -/
theorem refreshGo_snd (fetch : String → String → Except String (List Entry))
    (known : List String) (feeds : List (String × String)) (cur : List Entry) :
    ∃ recent, (refreshGo fetch known feeds cur).2 = recent ++ cur ∧
      ∀ e ∈ recent, e.title ∉ known := by
  induction feeds generalizing cur with
  | nil => exact ⟨[], by simp [refreshGo]⟩
  | cons f rest ih =>
    obtain ⟨n, u⟩ := f
    cases hf : fetch n u with
    | error err => exact ⟨[], by simp [refreshGo, hf]⟩
    | ok batch =>
      obtain ⟨recent, hr, hmem⟩ := ih (refreshStep known batch cur)
      refine ⟨recent ++ batch.filter (fun e => !(decide (e.title ∈ known))), ?_, ?_⟩
      · simp only [refreshGo, hf]
        rw [hr, refreshStep_eq, List.append_assoc]
      · intro e he
        rcases List.mem_append.mp he with h | h
        · exact hmem e h
        · have := List.of_mem_filter h
          simpa using this

/-! ## C1: merge ordering -/

/-- C1 (amended).  For a pre-existing collection and two configured feeds A
then B whose fetches yield fresh newest-first batches `[a1, a2]` and
`[b1, b2]`, refresh leaves the collection ordered `b1, b2, a1, a2` followed
by the pre-existing entries: the last-processed feed's items are nearest the
front and each feed's newest-first order is preserved.  (The claimed order
`b2, b1, a2, a1` would be oldest-first within each feed.) -/
theorem refresh_merge_order
    (fetch : String → String → Except String (List Entry))
    (nA uA nB uB : String) (a1 a2 b1 b2 : Entry) (old : List Entry)
    (hA : fetch nA uA = Except.ok [a1, a2])
    (hB : fetch nB uB = Except.ok [b1, b2])
    (ha1 : a1.title ∉ old.map (fun e => e.title))
    (ha2 : a2.title ∉ old.map (fun e => e.title))
    (hb1 : b1.title ∉ old.map (fun e => e.title))
    (hb2 : b2.title ∉ old.map (fun e => e.title)) :
    refresh fetch [(nA, uA), (nB, uB)] old = (none, b1 :: b2 :: a1 :: a2 :: old) := by
  simp only [List.mem_map, not_exists, not_and] at ha1 ha2 hb1 hb2
  simp only [refresh, refreshGo, hA, hB, refreshStep_eq]
  simp only [List.filter_cons, List.filter_nil, Bool.not_eq_true', decide_eq_false_iff_not,
    List.mem_map, not_exists, not_and]
  rw [if_pos hb1, if_pos hb2, if_pos ha1, if_pos ha2]
  simp

/-- Witness for C1 at a concrete two-feed configuration. -/
theorem refresh_merge_order_w :
    refresh fetchC1 [("A", "ua"), ("B", "ub")] [eOld] =
      (none, [eB1, eB2, eA1, eA2, eOld]) :=
  refresh_merge_order fetchC1 "A" "ua" "B" "ub" eA1 eA2 eB1 eB2 [eOld]
    rfl rfl (by decide) (by decide) (by decide) (by decide)

/-- Counterexample to C1 as stated: the same concrete refresh does *not*
produce the claimed order `b2, b1, a2, a1` in front of the old entries. -/
theorem refresh_merge_order_cex :
    refresh fetchC1 [("A", "ua"), ("B", "ub")] [eOld] ≠
      (none, [eB2, eB1, eA2, eA1, eOld]) := by
  decide

/-! ## C2: merge dedup and the fixed known-title snapshot -/

/-- C2.  (1) Any refresh only prepends entries whose titles were not in the
collection when the refresh began, and leaves the pre-existing entries as an
unchanged suffix: no second entry with a pre-existing title is inserted and
no field of an existing entry is modified.  (2) The known-title set is fixed
at the start of the call: two same-titled entries discovered in the same
fetched batch are both inserted. -/
theorem refresh_dedup :
    (∀ (fetch : String → String → Except String (List Entry))
       (feeds : List (String × String)) (old : List Entry),
       ∃ recent, (refresh fetch feeds old).2 = recent ++ old ∧
         ∀ e ∈ recent, e.title ∉ old.map (fun x => x.title)) ∧
    (∀ (fetch : String → String → Except String (List Entry))
       (n u : String) (old : List Entry) (e1 e2 : Entry),
       fetch n u = Except.ok [e1, e2] → e1.title = e2.title →
       e1.title ∉ old.map (fun x => x.title) →
       refresh fetch [(n, u)] old = (none, e1 :: e2 :: old)) := by
  constructor
  · intro fetch feeds old
    exact refreshGo_snd fetch (old.map (fun e => e.title)) feeds old
  · intro fetch n u old e1 e2 hf he h1
    have h2 : e2.title ∉ old.map (fun x => x.title) := he ▸ h1
    simp only [List.mem_map, not_exists, not_and] at h1 h2
    simp only [refresh, refreshGo, hf, refreshStep_eq]
    simp only [List.filter_cons, List.filter_nil, Bool.not_eq_true', decide_eq_false_iff_not,
      List.mem_map, not_exists, not_and]
    rw [if_pos h1, if_pos h2]
    simp

/-- Witness for C2: a batch containing two distinct entries with the same
fresh title gets both inserted, in front of the untouched old suffix. -/
theorem refresh_dedup_w :
    (∃ recent, (refresh fetchC2 [("A", "ua")] [eOld]).2 = recent ++ [eOld] ∧
       ∀ e ∈ recent, e.title ∉ [eOld].map (fun x => x.title)) ∧
    refresh fetchC2 [("A", "ua")] [eOld] = (none, [eDup1, eDup2, eOld]) :=
  ⟨refresh_dedup.1 fetchC2 [("A", "ua")] [eOld],
   refresh_dedup.2 fetchC2 "A" "ua" [eOld] eDup1 eDup2
     rfl (by decide) (by decide)⟩

/-! ## C3: a single feed's fetch failure -/

/-- C3 (amended).  A fetch failure on one feed aborts the rest of the
refresh rather than being skipped: the raised error propagates out of
`refresh`, the failing feed's and all later feeds' entries are not merged,
while feeds processed earlier in configuration order keep their already
merged entries (the collection is mutated in place). -/
theorem refresh_fetch_error_aborts :
    (∀ (fetch : String → String → Except String (List Entry))
       (n u : String) (rest : List (String × String)) (old : List Entry)
       (err : String), fetch n u = Except.error err →
       refresh fetch ((n, u) :: rest) old = (some err, old)) ∧
    (∀ (fetch : String → String → Except String (List Entry))
       (nA uA nB uB : String) (a : Entry) (old : List Entry) (err : String),
       fetch nA uA = Except.ok [a] → fetch nB uB = Except.error err →
       a.title ∉ old.map (fun x => x.title) →
       refresh fetch [(nA, uA), (nB, uB)] old = (some err, a :: old)) := by
  constructor
  · intro fetch n u rest old err hf
    simp [refresh, refreshGo, hf]
  · intro fetch nA uA nB uB a old err hA hB ha
    simp only [List.mem_map, not_exists, not_and] at ha
    simp only [refresh, refreshGo, hA, hB, refreshStep_eq]
    simp only [List.filter_cons, List.filter_nil, Bool.not_eq_true', decide_eq_false_iff_not,
      List.mem_map, not_exists, not_and]
    rw [if_pos ha]
    simp

/-- Witness for C3 at concrete configurations. -/
theorem refresh_fetch_error_aborts_w :
    refresh fetchC3 [("A", "ua"), ("B", "ub")] [eOld] = (some "boom", [eOld]) :=
  refresh_fetch_error_aborts.1 fetchC3 "A" "ua" [("B", "ub")] [eOld] "boom" rfl

/-- Counterexample to C3 as stated: feed "B" is perfectly fetchable (it
would yield the fresh entry `eB1`), yet after feed "A" fails the refresh
aborts with the error and `eB1` is not merged into the collection. -/
theorem refresh_fetch_error_cex :
    fetchC3 "B" "ub" = Except.ok [eB1] ∧
    eB1.title ∉ [eOld].map (fun x => x.title) ∧
    refresh fetchC3 [("A", "ua"), ("B", "ub")] [eOld] = (some "boom", [eOld]) ∧
    eB1 ∉ (refresh fetchC3 [("A", "ua"), ("B", "ub")] [eOld]).2 := by
  refine ⟨rfl, by decide, by decide, by decide⟩

/-! ## C4: cache round trip -/

/-- C4 (amended).  `fromCached ∘ cache` reproduces a non-empty collection
field-for-field and in order whenever each entry's stored summary is a fixed
point of the load-time summary cleaning (`_parse_html` + `strip`), i.e. it
is already stripped and does not re-trigger the HTML gate; the other five
fields always round-trip.  An entry whose summary has surrounding
whitespace, or still contains both `"<"` and `"</"`, is re-cleaned on load
and can change. -/
theorem cache_roundtrip (extract : String → String) (C : List Entry)
    (_hne : C ≠ [])
    (hfix : ∀ e ∈ C, clean_summary extract e.summary = e.summary) :
    from_cached extract (cache_entries C) = C := by
  unfold from_cached cache_entries
  rw [List.map_map]
  have h : ∀ e ∈ C, (Entry.from_json_obj extract ∘ Entry.json_serialize) e = e := by
    intro e he
    show Entry.from_json_obj extract (Entry.json_serialize e) = e
    simp only [Entry.from_json_obj, Entry.json_serialize, Entry.init, Option.getD_some]
    rw [hfix e he]
  calc C.map (Entry.from_json_obj extract ∘ Entry.json_serialize)
      = C.map id := List.map_congr_left h
    _ = C := List.map_id C

/-- Witness for C4 at the repository's own test-fixture entry. -/
theorem cache_roundtrip_w :
    from_cached (fun s => s) (cache_entries [entryT]) = [entryT] :=
  cache_roundtrip (fun s => s) [entryT] (by decide) (by decide)

/-- Counterexample to C4 as stated: the singleton collection holding `badE`
(summary `" x"`) is not reproduced — `Entry.__init__` re-strips the summary
on load, so the reconstructed entry has summary `"x"`.  (`badE`'s summary
contains no `"<"`, so the HTML converter is not invoked and the instantiated
extractor is irrelevant.) -/
theorem cache_roundtrip_cex :
    ¬ (∀ (extract : String → String) (C : List Entry),
        C ≠ [] → from_cached extract (cache_entries C) = C) := by
  intro h
  exact absurd (h (fun s => s) [badE] (by decide)) (by decide)

/-! ## Navigator helper lemmas -/

theorem getEntryAt_nil (s : ECScreen) (i : Int) (h : s.visible.length = 0) :
    getEntryAt s i = none := by
  simp [getEntryAt, h]

theorem getEntryAt_big (s : ECScreen) (i : Int)
    (h : (s.visible.length : Int) ≤ i) : getEntryAt s i = none := by
  by_cases h0 : s.visible.length = 0
  · simp [getEntryAt, h0]
  · simp [getEntryAt, h0, h]

theorem getEntryAt_pos (s : ECScreen) (i : Int) (h0 : 0 ≤ i)
    (h1 : i < (s.visible.length : Int)) :
    getEntryAt s i = some (visEntry s i.toNat) := by
  have hA : ¬ s.visible.length = 0 := by omega
  have hB : ¬ (s.visible.length : Int) ≤ i := by omega
  have hC : -(s.visible.length : Int) ≤ i := by omega
  simp only [getEntryAt, pyNorm, if_neg hA, if_neg hB, if_pos hC, if_pos h0]

theorem getEntryAt_neg (s : ECScreen) (i : Int)
    (h0 : -(s.visible.length : Int) ≤ i) (h1 : i < 0) :
    getEntryAt s i = some (visEntry s (s.visible.length - (-i).toNat)) := by
  have hA : ¬ s.visible.length = 0 := by omega
  have hB : ¬ (s.visible.length : Int) ≤ i := by omega
  have hD : ¬ (0 : Int) ≤ i := by omega
  simp only [getEntryAt, pyNorm, if_neg hA, if_neg hB, if_pos h0, if_neg hD]

theorem clampIdx_bounds (n : Nat) (i : Int) (h : 0 < n) :
    0 ≤ clampIdx n i ∧ clampIdx n i ≤ (n : Int) - 1 := by
  unfold clampIdx
  split
  · omega
  · split <;> omega

theorem clampIdx_id (n : Nat) (i : Int) (h0 : 0 ≤ i) (h1 : i ≤ (n : Int) - 1) :
    clampIdx n i = i := by
  unfold clampIdx
  split
  · omega
  · split <;> omega

/-- The highlight writes touch only `widgets`, preserving their count. -/
theorem hlWrites_frame (t : ECScreen) :
    (hlWrites t).visible = t.visible ∧
    (hlWrites t).entries = t.entries ∧
    (hlWrites t).display_read = t.display_read ∧
    (hlWrites t).idx = t.idx ∧
    (hlWrites t).widgets.length = t.widgets.length := by
  unfold hlWrites
  cases h1 : getEntryAt t t.idx with
  | none => exact ⟨rfl, rfl, rfl, rfl, rfl⟩
  | some cur =>
    refine ⟨rfl, rfl, rfl, rfl, ?_⟩
    cases h2 : getEntryAt t (t.idx - 1) <;> cases h3 : getEntryAt t (t.idx + 1) <;>
      simp [pySetL, List.length_set]

/-- `highlight_current` touches only `widgets` and `idx`, and preserves the
widget count. -/
theorem highlight_frame (s : ECScreen) :
    (highlight_current s).visible = s.visible ∧
    (highlight_current s).entries = s.entries ∧
    (highlight_current s).display_read = s.display_read ∧
    (highlight_current s).widgets.length = s.widgets.length := by
  unfold highlight_current
  split
  · exact ⟨rfl, rfl, rfl, rfl⟩
  · have h := hlWrites_frame { s with idx := clampIdx s.widgets.length s.idx }
    exact ⟨h.1, h.2.1, h.2.2.1, h.2.2.2.2⟩

/-- With at least one widget, `highlight_current` clamps the cursor into
`[0, nwidgets - 1]`. -/
theorem highlight_clamp (s : ECScreen) (h : 0 < s.widgets.length) :
    0 ≤ (highlight_current s).idx ∧
    (highlight_current s).idx ≤ (s.widgets.length : Int) - 1 := by
  unfold highlight_current
  rw [if_neg (by omega)]
  rw [(hlWrites_frame { s with idx := clampIdx s.widgets.length s.idx }).2.2.2.1]
  exact clampIdx_bounds s.widgets.length s.idx h

/-- With at least one widget and a cursor already in bounds,
`highlight_current` leaves the cursor where it is. -/
theorem highlight_idx_in (s : ECScreen) (h : 0 < s.widgets.length)
    (h0 : 0 ≤ s.idx) (h1 : s.idx ≤ (s.widgets.length : Int) - 1) :
    (highlight_current s).idx = s.idx := by
  unfold highlight_current
  rw [if_neg (by omega)]
  rw [(hlWrites_frame { s with idx := clampIdx s.widgets.length s.idx }).2.2.2.1]
  exact clampIdx_id s.widgets.length s.idx h0 h1

/-- One key press only rearranges widgets and moves the cursor. -/
theorem move_frame (m : Move) (s : ECScreen) :
    (on_key_move m s).visible = s.visible ∧
    (on_key_move m s).entries = s.entries ∧
    (on_key_move m s).display_read = s.display_read ∧
    (on_key_move m s).widgets.length = s.widgets.length := by
  cases m <;> exact highlight_frame _

/-- One key press lands the cursor in `[0, nwidgets - 1]` whenever there is
a widget, whatever the cursor was before. -/
theorem move_clamp (m : Move) (s : ECScreen) (h : 0 < s.widgets.length) :
    0 ≤ (on_key_move m s).idx ∧
    (on_key_move m s).idx ≤ (s.widgets.length : Int) - 1 := by
  cases m <;> exact highlight_clamp _ h

/-- The cursor after a down press is the clamp of the incremented cursor. -/
theorem move_idx_eq_down (s : ECScreen) (h : 0 < s.widgets.length) :
    (on_key_move Move.down s).idx = clampIdx s.widgets.length (s.idx + 1) := by
  show (highlight_current { s with idx := s.idx + 1 }).idx = _
  unfold highlight_current
  rw [if_neg (show ¬ s.widgets.length = 0 by omega)]
  exact (hlWrites_frame _).2.2.2.1

/-- The cursor after an up press is the clamp of the decremented cursor. -/
theorem move_idx_eq_up (s : ECScreen) (h : 0 < s.widgets.length) :
    (on_key_move Move.up s).idx = clampIdx s.widgets.length (s.idx - 1) := by
  show (highlight_current { s with idx := s.idx - 1 }).idx = _
  unfold highlight_current
  rw [if_neg (show ¬ s.widgets.length = 0 by omega)]
  exact (hlWrites_frame _).2.2.2.1

theorem runMoves_frame (s : ECScreen) (ms : List Move) :
    (runMoves s ms).visible = s.visible ∧
    (runMoves s ms).entries = s.entries ∧
    (runMoves s ms).display_read = s.display_read ∧
    (runMoves s ms).widgets.length = s.widgets.length := by
  induction ms generalizing s with
  | nil => exact ⟨rfl, rfl, rfl, rfl⟩
  | cons m rest ih =>
    have h1 := move_frame m s
    have h2 := ih (on_key_move m s)
    exact ⟨h2.1.trans h1.1, h2.2.1.trans h1.2.1, h2.2.2.1.trans h1.2.2.1,
      h2.2.2.2.trans h1.2.2.2⟩

theorem runMoves_keep (ms : List Move) (s : ECScreen) (h : 0 < s.widgets.length)
    (h0 : 0 ≤ s.idx) (h1 : s.idx ≤ (s.widgets.length : Int) - 1) :
    0 ≤ (runMoves s ms).idx ∧
    (runMoves s ms).idx ≤ (s.widgets.length : Int) - 1 := by
  induction ms generalizing s with
  | nil => exact ⟨h0, h1⟩
  | cons m rest ih =>
    have hb := move_clamp m s h
    have hf := move_frame m s
    have hlen : (on_key_move m s).widgets.length = s.widgets.length := hf.2.2.2
    have := ih (on_key_move m s) (by omega) hb.1 (by rw [hlen]; exact hb.2)
    rw [hlen] at this
    exact this

/-! ## C5: navigator bounds -/

/-- C5.  For a screen whose widgets mirror its visible projection, any
non-empty sequence of MoveDown/MoveUp key presses leaves `idx` in
`[0, nVisible - 1]` whenever the visible list is non-empty (the tether in
`highlight_current` clamps after every press, and any prefix of the
sequence is itself such a sequence, so the bound holds after each
operation); moving past the top or bottom end clamps there rather than
wrapping; and when the visible list is empty every press leaves the screen
empty with no current entry. -/
theorem navigator_bounds (s : ECScreen) (ms : List Move)
    (hwf : s.widgets.length = s.visible.length) (hne : ms ≠ []) :
    (0 < s.visible.length →
      0 ≤ (runMoves s ms).idx ∧ (runMoves s ms).idx < (s.visible.length : Int)) ∧
    (0 < s.visible.length → s.idx = (s.visible.length : Int) - 1 →
      (on_key_move Move.down s).idx = (s.visible.length : Int) - 1) ∧
    (0 < s.visible.length → s.idx = 0 → (on_key_move Move.up s).idx = 0) ∧
    (s.visible.length = 0 →
      (runMoves s ms).visible = s.visible ∧
      getEntryAt (runMoves s ms) ((runMoves s ms).idx) = none) := by
  refine ⟨?_, ?_, ?_, ?_⟩
  · intro hpos
    cases ms with
    | nil => exact absurd rfl hne
    | cons m rest =>
      have hw : 0 < s.widgets.length := by omega
      have hb := move_clamp m s hw
      have hf := move_frame m s
      have hlen : (on_key_move m s).widgets.length = s.widgets.length := hf.2.2.2
      have hk := runMoves_keep rest (on_key_move m s) (by omega) hb.1
        (by rw [hlen]; exact hb.2)
      rw [hlen] at hk
      have : runMoves s (m :: rest) = runMoves (on_key_move m s) rest := rfl
      rw [this]
      omega
  · intro hpos hend
    rw [move_idx_eq_down s (by omega)]
    unfold clampIdx
    split
    · omega
    · split <;> omega
  · intro hpos hzero
    rw [move_idx_eq_up s (by omega)]
    unfold clampIdx
    split
    · rfl
    · split <;> omega
  · intro h0
    have hf := runMoves_frame s ms
    exact ⟨hf.1, getEntryAt_nil _ _ (by rw [hf.1]; exact h0)⟩

/-- Witness for C5 at a concrete screen and key sequence. -/
theorem navigator_bounds_w :
    (0 ≤ (runMoves sNav [Move.down, Move.down, Move.down, Move.up]).idx ∧
      (runMoves sNav [Move.down, Move.down, Move.down, Move.up]).idx <
        (sNav.visible.length : Int)) ∧
    getEntryAt (runMoves (ECScreen.build [mkR "r"] false 0) [Move.down])
      ((runMoves (ECScreen.build [mkR "r"] false 0) [Move.down]).idx) = none :=
  ⟨(navigator_bounds sNav [Move.down, Move.down, Move.down, Move.up]
      (by decide) (by decide)).1 (by decide),
   ((navigator_bounds (ECScreen.build [mkR "r"] false 0) [Move.down]
      (by decide) (by decide)).2.2.2 (by decide)).2⟩

/-- Computation of `mark_read` in hide-read mode at a valid cursor: the
backing entry at the cursor's visible slot is marked read, the widget and
the visible slot are popped, and the result is re-highlighted. -/
theorem mark_read_hide_eq (s : ECScreen)
    (hwf : s.widgets.length = s.visible.length) (hd : s.display_read = false)
    (h0 : 0 ≤ s.idx) (h1 : s.idx < (s.visible.length : Int)) :
    mark_read s = some (highlight_current
      { s with
          entries := s.entries.set (s.visible.getD s.idx.toNat 0)
            { visEntry s s.idx.toNat with is_read := true },
          widgets := s.widgets.eraseIdx s.idx.toNat,
          visible := s.visible.eraseIdx s.idx.toNat }) := by
  have hw1 : ¬ ((s.widgets.length : Int) ≤ s.idx) := by omega
  have hw2 : ¬ (s.idx < -(s.widgets.length : Int)) := by omega
  have hv1 : ¬ ((s.visible.length : Int) ≤ s.idx) := by omega
  have hv2 : ¬ (s.idx < -(s.visible.length : Int)) := by omega
  simp only [mark_read, getEntryAt_pos s s.idx h0 h1, hd, Bool.false_eq_true,
    if_false, pyPop, if_neg hw1, if_neg hw2, if_neg hv1, if_neg hv2,
    pyNorm, if_pos h0]

/-! ## C7: mark-read removal in hide-read mode -/

/-- C7.  With the read filter hiding read entries and a valid cursor,
marking the current entry read removes exactly one entry from the visible
projection, and afterwards either the visible list is empty (the screen is
left in its empty state) or the cursor is clamped into the new bounds
`[0, nVisible - 1]`. -/
theorem mark_read_removal (s : ECScreen)
    (hwf : s.widgets.length = s.visible.length) (hd : s.display_read = false)
    (h0 : 0 ≤ s.idx) (h1 : s.idx < (s.visible.length : Int)) :
    ∃ s', mark_read s = some s' ∧
      s'.visible.length = s.visible.length - 1 ∧
      (s'.visible.length = 0 ∨ (0 ≤ s'.idx ∧ s'.idx < (s'.visible.length : Int))) := by
  rw [mark_read_hide_eq s hwf hd h0 h1]
  set t : ECScreen :=
    { s with
        entries := s.entries.set (s.visible.getD s.idx.toNat 0)
          { visEntry s s.idx.toNat with is_read := true },
        widgets := s.widgets.eraseIdx s.idx.toNat,
        visible := s.visible.eraseIdx s.idx.toNat } with ht
  have hidx : s.idx.toNat < s.visible.length := by omega
  have hvlen : t.visible.length = s.visible.length - 1 := by
    rw [ht]
    exact List.length_eraseIdx_of_lt hidx
  have hwlen : t.widgets.length = s.visible.length - 1 := by
    rw [ht]
    simpa [hwf] using List.length_eraseIdx_of_lt (by omega : s.idx.toNat < s.widgets.length)
  have hf := highlight_frame t
  refine ⟨highlight_current t, rfl, by rw [hf.1, hvlen], ?_⟩
  by_cases hz : s.visible.length - 1 = 0
  · exact Or.inl (by rw [hf.1, hvlen, hz])
  · right
    have hc := highlight_clamp t (by omega)
    rw [hf.1, hvlen]
    constructor
    · exact hc.1
    · have := hc.2
      rw [hwlen] at this
      omega

/-- Witness for C7 at a concrete hide-read screen. -/
theorem mark_read_removal_w :
    ∃ s', mark_read sNav = some s' ∧
      s'.visible.length = sNav.visible.length - 1 ∧
      (s'.visible.length = 0 ∨ (0 ≤ s'.idx ∧ s'.idx < (s'.visible.length : Int))) :=
  mark_read_removal sNav (by decide) (by decide) (by decide) (by decide)

/-! ## C8: mark-read only shrinks the projection, not the backing -/

/-- C8.  Marking the current entry read in hide-read mode removes it only
from the visible projection: the backing collection keeps the same length,
the entry at the cursor's backing slot is still there with `is_read = true`
and all other fields unchanged, every other backing entry is untouched (no
addition, removal, reordering or field modification), and the visible
projection loses exactly the cursor's slot. -/
theorem mark_read_backing (s : ECScreen) (hwf : ECScreen.WF s)
    (hd : s.display_read = false)
    (h0 : 0 ≤ s.idx) (h1 : s.idx < (s.visible.length : Int)) :
    ∃ s', mark_read s = some s' ∧
      s'.entries.length = s.entries.length ∧
      s'.entries.getD (s.visible.getD s.idx.toNat 0) dEntry =
        { s.entries.getD (s.visible.getD s.idx.toNat 0) dEntry with
            is_read := true } ∧
      (∀ j, j ≠ s.visible.getD s.idx.toNat 0 →
        s'.entries.getD j dEntry = s.entries.getD j dEntry) ∧
      s'.visible = s.visible.eraseIdx s.idx.toNat := by
  rw [mark_read_hide_eq s hwf.1 hd h0 h1]
  set t : ECScreen :=
    { s with
        entries := s.entries.set (s.visible.getD s.idx.toNat 0)
          { visEntry s s.idx.toNat with is_read := true },
        widgets := s.widgets.eraseIdx s.idx.toNat,
        visible := s.visible.eraseIdx s.idx.toNat } with ht
  have hf := highlight_frame t
  have hb : s.visible.getD s.idx.toNat 0 < s.entries.length :=
    hwf.2 _ (getD_mem_of_lt s.visible s.idx.toNat 0 (by omega))
  refine ⟨highlight_current t, rfl, ?_, ?_, ?_, ?_⟩
  · rw [hf.2.1, ht]
    simp [List.length_set]
  · rw [hf.2.1, ht]
    exact getD_set_self s.entries _ _ dEntry hb
  · intro j hj
    rw [hf.2.1, ht]
    exact getD_set_other s.entries _ j _ dEntry (fun h => hj h.symm)
  · rw [hf.1, ht]

/-- Witness for C8 at a concrete hide-read screen. -/
theorem mark_read_backing_w :
    ∃ s', mark_read sNav = some s' ∧
      s'.entries.length = sNav.entries.length ∧
      s'.entries.getD (sNav.visible.getD 0 0) dEntry =
        { sNav.entries.getD (sNav.visible.getD 0 0) dEntry with is_read := true } ∧
      (∀ j, j ≠ sNav.visible.getD 0 0 →
        s'.entries.getD j dEntry = sNav.entries.getD j dEntry) ∧
      s'.visible = sNav.visible.eraseIdx 0 :=
  mark_read_backing sNav ⟨by decide, by decide⟩ (by decide) (by decide) (by decide)

/-! ## C10: totality and wrap-around of `__getitem__` -/

/-- C10.  Indexed lookup on the visible projection returns `none` instead of
raising both when the visible list is empty and when `idx ≥ len(visible)`;
for `0 ≤ idx < len(visible)` it returns the entry at position `idx`; for
`-len(visible) ≤ idx ≤ -1` it wraps around and returns the entry at
position `len(visible) + idx`; in particular the neighbour lookup at
`currentIndex - 1` performed when `currentIndex = 0` yields the *last*
visible entry rather than `None`. -/
theorem getitem_total (s : ECScreen) (i : Int) :
    (s.visible.length = 0 → getEntryAt s i = none) ∧
    ((s.visible.length : Int) ≤ i → getEntryAt s i = none) ∧
    (0 ≤ i → i < (s.visible.length : Int) →
      getEntryAt s i = some (visEntry s i.toNat)) ∧
    (-(s.visible.length : Int) ≤ i → i < 0 →
      getEntryAt s i = some (visEntry s (s.visible.length - (-i).toNat))) ∧
    (0 < s.visible.length →
      getEntryAt s (0 - 1 : Int) = some (visEntry s (s.visible.length - 1))) := by
  refine ⟨getEntryAt_nil s i, getEntryAt_big s i, getEntryAt_pos s i,
    getEntryAt_neg s i, ?_⟩
  intro h
  rw [getEntryAt_neg s (0 - 1) (by omega) (by omega)]
  norm_num

/-- Witness for C10 at a concrete screen: out-of-range, in-range, and
wrap-around lookups. -/
theorem getitem_total_w :
    getEntryAt sNav 5 = none ∧
    getEntryAt sNav 0 = some (visEntry sNav 0) ∧
    getEntryAt sNav (-1) = some (visEntry sNav (sNav.visible.length - 1)) ∧
    getEntryAt sNav (0 - 1) = some (visEntry sNav (sNav.visible.length - 1)) :=
  ⟨(getitem_total sNav 5).2.1 (by decide),
   (getitem_total sNav 0).2.2.1 (by decide) (by decide),
   (getitem_total sNav (-1)).2.2.2.1 (by decide) (by decide),
   (getitem_total sNav 0).2.2.2.2 (by decide)⟩

/-- Reading from a twice-overwritten list: the later write wins. -/
theorem getD_set2 {α : Type} (l : List α) (i1 i2 : Nat) (a1 a2 d : α) (k : Nat)
    (h1 : i1 < l.length) (h2 : i2 < l.length) :
    ((l.set i1 a1).set i2 a2).getD k d =
      if k = i2 then a2 else if k = i1 then a1 else l.getD k d := by
  by_cases e2 : k = i2
  · subst e2
    rw [if_pos rfl]
    exact getD_set_self _ _ _ _ (by simp [List.length_set]; omega)
  · rw [if_neg e2, getD_set_other _ _ _ _ _ (fun h => e2 h.symm)]
    by_cases e1 : k = i1
    · subst e1
      rw [if_pos rfl]
      exact getD_set_self _ _ _ _ h1
    · rw [if_neg e1, getD_set_other _ _ _ _ _ (fun h => e1 h.symm)]

/-- Reading from a thrice-overwritten list: the latest write wins. -/
theorem getD_set3 {α : Type} (l : List α) (i1 i2 i3 : Nat) (a1 a2 a3 d : α)
    (k : Nat) (h1 : i1 < l.length) (h2 : i2 < l.length) (h3 : i3 < l.length) :
    (((l.set i1 a1).set i2 a2).set i3 a3).getD k d =
      if k = i3 then a3
      else if k = i2 then a2
      else if k = i1 then a1
      else l.getD k d := by
  by_cases e3 : k = i3
  · subst e3
    rw [if_pos rfl]
    exact getD_set_self _ _ _ _ (by simp [List.length_set]; omega)
  · rw [if_neg e3, getD_set_other _ _ _ _ _ (fun h => e3 h.symm)]
    exact getD_set2 l i1 i2 a1 a2 d k h1 h2

/-- Pointwise description of the widgets after the highlight writes, for a
well-formed screen with an in-bounds cursor: the slot at `idx + 1` (when it
exists) and the above-slot get the default rendering of their own entries,
the slot at `idx` gets the current rendering — unless overwritten by one of
the neighbour writes, which is what happens at `nVisible = 1` — and every
other slot is untouched. -/
theorem hlWrites_getD (t : ECScreen) (hl : t.widgets.length = t.visible.length)
    (h0 : 0 ≤ t.idx) (h1 : t.idx < (t.visible.length : Int))
    (k : Nat) (hk : k < t.visible.length) :
    (hlWrites t).widgets.getD k dW =
      (if k = t.idx.toNat + 1 then WContent.wdefault (visEntry t k)
       else if k = aboveSlot t then WContent.wdefault (visEntry t k)
       else if k = t.idx.toNat then WContent.wcurrent (visEntry t k)
       else t.widgets.getD k dW) := by
  have hV : 1 ≤ t.visible.length := by omega
  have hp : t.idx.toNat < t.widgets.length := by omega
  have hcur := getEntryAt_pos t t.idx h0 h1
  have hnorm0 : pyNorm t.widgets.length t.idx = t.idx.toNat := by
    simp [pyNorm, h0]
  have hnormB : pyNorm t.widgets.length (t.idx + 1) = t.idx.toNat + 1 := by
    simp only [pyNorm, if_pos (show (0 : Int) ≤ t.idx + 1 by omega)]
    omega
  by_cases hA0 : t.idx = 0
  · -- the above write wraps to the last slot
    have habove : getEntryAt t (t.idx - 1) =
        some (visEntry t (t.visible.length - 1)) := by
      rw [getEntryAt_neg t (t.idx - 1) (by omega) (by omega)]
      have he : (-(t.idx - 1)).toNat = 1 := by omega
      rw [he]
    have hslot : aboveSlot t = t.visible.length - 1 := by simp [aboveSlot, hA0]
    have hnormA : pyNorm t.widgets.length (t.idx - 1) = t.visible.length - 1 := by
      simp only [pyNorm, if_neg (show ¬ (0 : Int) ≤ t.idx - 1 by omega)]
      omega
    by_cases hB : t.idx + 1 < (t.visible.length : Int)
    · have hbelow := getEntryAt_pos t (t.idx + 1) (by omega) hB
      have htn : (t.idx + 1).toNat = t.idx.toNat + 1 := by omega
      rw [htn] at hbelow
      simp only [hlWrites, hcur, habove, hbelow, pySetL, List.length_set,
        hnorm0, hnormA, hnormB]
      rw [getD_set3 _ _ _ _ _ _ _ dW k hp (by omega) (by omega), hslot]
      split_ifs <;> simp_all
    · have hbelow := getEntryAt_big t (t.idx + 1) (by omega)
      simp only [hlWrites, hcur, habove, hbelow, pySetL, List.length_set,
        hnorm0, hnormA]
      rw [getD_set2 _ _ _ _ _ dW k hp (by omega), hslot]
      rw [if_neg (show ¬ k = t.idx.toNat + 1 by omega)]
      split_ifs <;> simp_all
  · -- idx ≥ 1: the above write goes to idx - 1
    have habove := getEntryAt_pos t (t.idx - 1) (by omega) (by omega)
    have htnA : (t.idx - 1).toNat = t.idx.toNat - 1 := by omega
    rw [htnA] at habove
    have hslot : aboveSlot t = t.idx.toNat - 1 := by simp [aboveSlot, hA0]
    have hnormA : pyNorm t.widgets.length (t.idx - 1) = t.idx.toNat - 1 := by
      simp only [pyNorm, if_pos (show (0 : Int) ≤ t.idx - 1 by omega)]
      omega
    by_cases hB : t.idx + 1 < (t.visible.length : Int)
    · have hbelow := getEntryAt_pos t (t.idx + 1) (by omega) hB
      have htn : (t.idx + 1).toNat = t.idx.toNat + 1 := by omega
      rw [htn] at hbelow
      simp only [hlWrites, hcur, habove, hbelow, pySetL, List.length_set,
        hnorm0, hnormA, hnormB]
      rw [getD_set3 _ _ _ _ _ _ _ dW k hp (by omega) (by omega), hslot]
      split_ifs <;> simp_all
    · have hbelow := getEntryAt_big t (t.idx + 1) (by omega)
      simp only [hlWrites, hcur, habove, hbelow, pySetL, List.length_set,
        hnorm0, hnormA]
      rw [getD_set2 _ _ _ _ _ dW k hp (by omega), hslot]
      rw [if_neg (show ¬ k = t.idx.toNat + 1 by omega)]
      split_ifs <;> simp_all

theorem build_widgets_length (es : List Entry) (d : Bool) (i : Int) :
    (ECScreen.build es d i).widgets.length = (ECScreen.build es d i).visible.length := by
  simp [ECScreen.build]

/-- A freshly composed screen renders every visible entry in the default
style. -/
theorem build_widgets_getD (es : List Entry) (d : Bool) (i : Int) (k : Nat)
    (hk : k < (visibleIdxs es d).length) :
    (ECScreen.build es d i).widgets.getD k dW =
      WContent.wdefault (visEntry (ECScreen.build es d i) k) := by
  show ((visibleIdxs es d).map _).getD k dW = _
  rw [getD_map_lt _ _ k dW 0 hk]
  rfl

/-- Arithmetical characterization of the tether. -/
theorem clampIdx_cases (n : Nat) (i : Int) :
    (clampIdx n i = 0 ∧ i ≤ 0) ∨
    (clampIdx n i = (n : Int) - 1 ∧ (n : Int) - 1 ≤ i) ∨
    clampIdx n i = i := by
  unfold clampIdx
  split
  · exact Or.inl ⟨rfl, by omega⟩
  · split
    · exact Or.inr (Or.inl ⟨rfl, by omega⟩)
    · exact Or.inr (Or.inr rfl)

/-- Mounting a freshly built screen with at least two visible entries
establishes the rendered shape. -/
theorem mount_rendered (es : List Entry) (d : Bool) (i0 : Int)
    (hn : 2 ≤ (visibleIdxs es d).length) :
    rendered (highlight_current (ECScreen.build es d i0)) := by
  have hw := build_widgets_length es d i0
  have hv : (ECScreen.build es d i0).visible = visibleIdxs es d := rfl
  have hpos : 0 < (ECScreen.build es d i0).widgets.length := by
    rw [hw, hv]; omega
  unfold highlight_current
  rw [if_neg (by omega)]
  set s := ECScreen.build es d i0 with hs
  set t : ECScreen := { s with idx := clampIdx s.widgets.length s.idx } with htdef
  obtain ⟨hc1, hc2⟩ := clampIdx_bounds s.widgets.length s.idx hpos
  have hts : t.idx = clampIdx s.widgets.length s.idx := rfl
  have htw : t.widgets.length = t.visible.length := hw
  have htv : t.visible.length = (visibleIdxs es d).length := rfl
  have ht0 : 0 ≤ t.idx := by omega
  have ht1 : t.idx < (t.visible.length : Int) := by
    have hle : t.visible.length = s.visible.length := rfl
    omega
  have hf := hlWrites_frame t
  refine ⟨by rw [hf.2.2.2.2, hf.1, htw], ?_, ?_, ?_⟩
  · rw [hf.2.2.2.1]; exact ht0
  · rw [hf.2.2.2.1, hf.1]; exact ht1
  · intro k hk
    rw [hf.1] at hk
    have hvE : ∀ j, visEntry (hlWrites t) j = visEntry t j := by
      intro j
      unfold visEntry
      rw [hf.1, hf.2.1]
    rw [hlWrites_getD t htw ht0 ht1 k hk, hf.2.2.2.1, hvE]
    have hab : ¬ aboveSlot t = t.idx.toNat := by
      unfold aboveSlot
      split <;> omega
    by_cases h1 : k = t.idx.toNat + 1
    · rw [if_pos h1, if_neg (by omega)]
    · rw [if_neg h1]
      by_cases h2 : k = aboveSlot t
      · rw [if_pos h2, if_neg (by omega)]
      · rw [if_neg h2]
        by_cases h3 : k = t.idx.toNat
        · rw [if_pos h3, if_pos (by omega)]
        · rw [if_neg h3, if_neg (by omega)]
          rw [show t.widgets.getD k dW = s.widgets.getD k dW from rfl,
            show visEntry t k = visEntry s k from rfl]
          exact build_widgets_getD es d i0 k (by rw [← htv]; exact hk)

/-- One key press preserves the rendered shape (with at least two visible
entries). -/
theorem move_rendered (s : ECScreen) (m : Move) (hn : 2 ≤ s.visible.length)
    (hr : rendered s) : rendered (on_key_move m s) := by
  obtain ⟨hw, hi0, hi1, hpt⟩ := hr
  have hpos : 0 < s.widgets.length := by omega
  have hstep : ∃ s' : ECScreen, on_key_move m s = highlight_current s' ∧
      s'.widgets = s.widgets ∧ s'.visible = s.visible ∧ s'.entries = s.entries ∧
      (s'.idx = s.idx + 1 ∨ s'.idx = s.idx - 1) := by
    cases m
    · exact ⟨{ s with idx := s.idx + 1 }, rfl, rfl, rfl, rfl, Or.inl rfl⟩
    · exact ⟨{ s with idx := s.idx - 1 }, rfl, rfl, rfl, rfl, Or.inr rfl⟩
  obtain ⟨s', heq, hsw, hsv, hse, hsi⟩ := hstep
  have hW' : s'.widgets.length = s.widgets.length := by rw [hsw]
  rw [heq]
  unfold highlight_current
  rw [if_neg (by omega)]
  set t : ECScreen := { s' with idx := clampIdx s'.widgets.length s'.idx } with htdef
  have htww : t.widgets = s.widgets := hsw
  have htvv : t.visible = s.visible := hsv
  have htw : t.widgets.length = t.visible.length := by rw [htww, htvv]; exact hw
  obtain ⟨hc1, hc2⟩ := clampIdx_bounds s'.widgets.length s'.idx (by omega)
  have hts : t.idx = clampIdx s'.widgets.length s'.idx := rfl
  have hV' : t.visible.length = s.visible.length := by rw [htvv]
  have ht0 : 0 ≤ t.idx := by omega
  have ht1 : t.idx < (t.visible.length : Int) := by omega
  have hf := hlWrites_frame t
  have hcover : s.idx.toNat = t.idx.toNat ∨ s.idx.toNat = aboveSlot t ∨
      s.idx.toNat = t.idx.toNat + 1 := by
    have hcc := clampIdx_cases s'.widgets.length s'.idx
    by_cases hz : t.idx = 0
    · have habs : aboveSlot t = t.visible.length - 1 := by
        unfold aboveSlot
        rw [if_pos hz]
      rw [habs]
      omega
    · have habs : aboveSlot t = t.idx.toNat - 1 := by
        unfold aboveSlot
        rw [if_neg hz]
      rw [habs]
      omega
  refine ⟨by rw [hf.2.2.2.2, hf.1, htw], ?_, ?_, ?_⟩
  · rw [hf.2.2.2.1]; exact ht0
  · rw [hf.2.2.2.1, hf.1]; exact ht1
  · intro k hk
    rw [hf.1] at hk
    have hvE : ∀ j, visEntry (hlWrites t) j = visEntry t j := by
      intro j
      unfold visEntry
      rw [hf.1, hf.2.1]
    have hvE2 : ∀ j, visEntry t j = visEntry s j := by
      intro j
      unfold visEntry
      rw [htvv, show t.entries = s.entries from hse]
    rw [hlWrites_getD t htw ht0 ht1 k hk, hf.2.2.2.1, hvE]
    have hab : ¬ aboveSlot t = t.idx.toNat := by
      unfold aboveSlot
      split <;> omega
    by_cases h1 : k = t.idx.toNat + 1
    · rw [if_pos h1, if_neg (by omega), hvE2]
    · rw [if_neg h1]
      by_cases h2 : k = aboveSlot t
      · rw [if_pos h2, if_neg (by omega), hvE2]
      · rw [if_neg h2]
        by_cases h3 : k = t.idx.toNat
        · rw [if_pos h3, if_pos (by omega), hvE2]
        · rw [if_neg h3, if_neg (by omega), hvE2]
          rw [show t.widgets.getD k dW = s.widgets.getD k dW by rw [htww]]
          rw [hpt k (by rw [← htvv]; exact hk)]
          rw [if_neg (by omega)]

/-! ## C9: highlight rendering classification -/

/-- C9 (amended).  For screens with at least two visible entries the
rendering maintains a two-state classification: mounting a freshly built
screen and every subsequent MoveDown/MoveUp leave the screen in the
`rendered` shape, in which the widget at `currentIndex` is the unique one in
the "current" (highlighted) state and every other widget — including the
neighbours at `currentIndex ± 1`, which are re-rendered on each step, and,
when `currentIndex = 0`, the last widget (hit by the `widgets[-1]`
wrap-around) — shows the default rendering of its own entry; the code has no
visually distinct "adjacent" state.  (With a single visible entry the
wrap-around write overwrites the highlight, so no widget is in the current
state — see the counterexample.) -/
theorem highlight_classification :
    (∀ (es : List Entry) (d : Bool) (i0 : Int), 2 ≤ (visibleIdxs es d).length →
      rendered (highlight_current (ECScreen.build es d i0))) ∧
    (∀ (s : ECScreen) (m : Move), 2 ≤ s.visible.length → rendered s →
      rendered (on_key_move m s)) ∧
    (∀ s : ECScreen, rendered s →
      s.widgets.getD s.idx.toNat dW = WContent.wcurrent (visEntry s s.idx.toNat) ∧
      (∀ k, k < s.visible.length → k ≠ s.idx.toNat →
        s.widgets.getD k dW = WContent.wdefault (visEntry s k)) ∧
      (∃! k, k < s.visible.length ∧ isCur (s.widgets.getD k dW) = true)) := by
  refine ⟨mount_rendered, fun s m hn hr => move_rendered s m hn hr, ?_⟩
  intro s hr
  obtain ⟨hw, h0, h1, hpt⟩ := hr
  have hcur : s.widgets.getD s.idx.toNat dW =
      WContent.wcurrent (visEntry s s.idx.toNat) := by
    have h := hpt s.idx.toNat (by omega)
    rw [if_pos (by omega)] at h
    exact h
  refine ⟨hcur, ?_, ?_⟩
  · intro k hk hne
    have h := hpt k hk
    rw [if_neg (by omega)] at h
    exact h
  · refine ⟨s.idx.toNat, ⟨by omega, by rw [hcur]; rfl⟩, ?_⟩
    intro k hk2
    obtain ⟨hk, hcurk⟩ := hk2
    by_contra hne
    have h := hpt k hk
    rw [if_neg (by omega)] at h
    rw [h] at hcurk
    simp [isCur] at hcurk

/-- Witness for C9: a mounted two-entry screen is rendered, stays rendered
after a key press, and has a unique current-state widget. -/
theorem highlight_classification_w :
    rendered (highlight_current (ECScreen.build esTwo false 0)) ∧
    rendered (on_key_move Move.down (highlight_current (ECScreen.build esTwo false 0))) ∧
    (∃! k, k < (highlight_current (ECScreen.build esTwo false 0)).visible.length ∧
      isCur ((highlight_current (ECScreen.build esTwo false 0)).widgets.getD k dW)
        = true) := by
  have h1 := highlight_classification.1 esTwo false 0 (by decide)
  exact ⟨h1,
    highlight_classification.2.1 _ Move.down (by decide) h1,
    (highlight_classification.2.2 _ h1).2.2⟩

/-- Counterexample to C9 as stated: a freshly mounted screen over a single
unread entry has one visible entry but *zero* widgets in the "current"
state — the `widgets[-1]` neighbour write wraps around onto the only widget
and overwrites the highlight with the default rendering. -/
theorem highlight_classification_cex :
    0 < (highlight_current (ECScreen.build esOne false 0)).visible.length ∧
    countCurrent (highlight_current (ECScreen.build esOne false 0)) = 0 :=
  ⟨by decide, by decide⟩

/-! ## toggle_read lemmas -/

theorem get?_getD {α : Type} (l : List α) (k : Nat) (d : α) (h : k < l.length) :
    l.get? k = some (l.getD k d) := by
  induction l generalizing k with
  | nil => simp at h
  | cons x xs ih =>
    cases k with
    | zero => simp
    | succ n => simpa using ih n (by simpa using h)

/-- If the whole list is a read-run (the inner while raises), there are no
unread positions. -/
theorem lr_none (l : List Entry) (h : leadingRead l = none) : unreadIdxs l = [] := by
  induction l with
  | nil => rfl
  | cons e rest ih =>
    unfold leadingRead at h
    by_cases hr : e.is_read
    · rw [if_pos hr] at h
      cases hlr : leadingRead rest with
      | none => simp [unreadIdxs, hr, ih hlr]
      | some r => rw [hlr] at h; simp at h
    · rw [if_neg hr] at h
      simp at h

/-- Skipping a leading read-run shifts the unread positions. -/
theorem lr_some (l : List Entry) (r : Nat) (h : leadingRead l = some r) :
    unreadIdxs l = (unreadIdxs (l.drop r)).map (· + r) := by
  induction l generalizing r with
  | nil => simp [leadingRead] at h
  | cons e rest ih =>
    unfold leadingRead at h
    by_cases hr : e.is_read
    · rw [if_pos hr] at h
      cases hlr : leadingRead rest with
      | none => rw [hlr] at h; simp at h
      | some r' =>
        rw [hlr] at h
        simp at h
        subst h
        rw [show unreadIdxs (e :: rest) = (unreadIdxs rest).map (· + 1) by
              simp [unreadIdxs, hr],
            ih r' hlr,
            show (e :: rest).drop (r' + 1) = rest.drop r' from rfl,
            List.map_map]
        apply List.map_congr_left
        intro a _
        simp
        omega
    · rw [if_neg hr] at h
      simp at h
      subst h
      simp

/-- With the target index already behind `j`, the loop stops immediately. -/
theorem showLoopFuel_stop (fuel : Nat) (l : List Entry) (j ni : Int)
    (h : ni < j) : showLoopFuel (fuel + 1) l j ni = some ni := by
  cases l <;> simp [showLoopFuel, h]

/-- The while loop of the hide-read → show-read remap resolves visible index
`g` (relative to start position `j`) to the `g`-th unread position of the
suffix, raising (`none`) when there is no such position. -/
theorem showLoopFuel_spec (fuel : Nat) :
    ∀ (l : List Entry), l.length + 1 ≤ fuel → ∀ (g : Nat) (j : Int),
      showLoopFuel fuel l j (j + g) =
        ((unreadIdxs l).get? g).map (fun p => j + (p : Int)) := by
  induction fuel with
  | zero => intro l h; omega
  | succ f ih =>
    intro l hl g j
    cases l with
    | nil =>
      rw [show showLoopFuel (f + 1) [] j (j + g) =
            (if (j + (g : Int)) < j then some (j + g) else none) from rfl]
      rw [if_neg (by omega)]
      simp [unreadIdxs]
    | cons e rest =>
      have hstep : showLoopFuel (f + 1) (e :: rest) j (j + g) =
          (if e.is_read then
            match leadingRead rest with
            | none => none
            | some r =>
              showLoopFuel f (rest.drop r) (j + ((r : Int) + 1))
                ((j + g) + ((r : Int) + 1))
          else showLoopFuel f rest (j + 1) (j + g)) := by
        rw [show showLoopFuel (f + 1) (e :: rest) j (j + g) =
              (if (j + (g : Int)) < j then some (j + g)
               else
                (if e.is_read then
                  match leadingRead rest with
                  | none => none
                  | some r =>
                    showLoopFuel f (rest.drop r) (j + ((r : Int) + 1))
                      ((j + g) + ((r : Int) + 1))
                else showLoopFuel f rest (j + 1) (j + g))) from rfl]
        rw [if_neg (by omega)]
      rw [hstep]
      by_cases hr : e.is_read
      · rw [if_pos hr]
        cases hlr : leadingRead rest with
        | none =>
          rw [show unreadIdxs (e :: rest) = (unreadIdxs rest).map (· + 1) by
                simp [unreadIdxs, hr],
              lr_none rest hlr]
          simp
        | some r =>
          have harith : (j + (g : Int)) + ((r : Int) + 1) =
              (j + ((r : Int) + 1)) + (g : Int) := by ring
          rw [show (match some r with
              | none => none
              | some r => showLoopFuel f (rest.drop r) (j + ((r : Int) + 1))
                  ((j + (g : Int)) + ((r : Int) + 1))) =
              showLoopFuel f (rest.drop r) (j + ((r : Int) + 1))
                ((j + (g : Int)) + ((r : Int) + 1)) from rfl]
          rw [harith,
            ih (rest.drop r) (by simp [List.length_drop] at *; omega) g
              (j + ((r : Int) + 1))]
          rw [show unreadIdxs (e :: rest) = (unreadIdxs rest).map (· + 1) by
                simp [unreadIdxs, hr],
              lr_some rest r hlr, List.map_map, List.get?_map]
          cases hg : (unreadIdxs (rest.drop r)).get? g with
          | none => simp [hg]
          | some p =>
            show (Option.map (fun p => j + ((r : Int) + 1) + p) (some ((p : Int)))) =
              Option.map (fun p => j + p) (some (((p + r + 1 : Nat) : Int)))
            simp only [Option.map_some']
            congr 1
            push_cast
            ring
      · rw [if_neg hr]
        rw [show unreadIdxs (e :: rest) = 0 :: (unreadIdxs rest).map (· + 1) by
              simp [unreadIdxs, hr]]
        cases g with
        | zero =>
          cases f with
          | zero => simp at hl
          | succ f' =>
            rw [show j + ((0 : Nat) : Int) = j by simp]
            rw [showLoopFuel_stop f' rest (j + 1) j (by omega)]
            simp
        | succ g' =>
          have harith : j + ((g' + 1 : Nat) : Int) = (j + 1) + (g' : Int) := by
            push_cast
            ring
          rw [harith, ih rest (by simp at hl; omega) g' (j + 1),
            show (0 :: (unreadIdxs rest).map (· + 1)).get? (g' + 1) =
              ((unreadIdxs rest).map (· + 1)).get? g' from rfl,
            List.get?_map]
          cases hg : (unreadIdxs rest).get? g' with
          | none => simp [hg]
          | some p =>
            show (Option.map (fun p => j + 1 + p) (some ((p : Int)))) =
              Option.map (fun p => j + p) (some (((p + 1 : Nat) : Int)))
            simp only [Option.map_some']
            congr 1
            push_cast
            ring

/-- Characterization of the `k`-th unread position `p`: the read count up to
and including `p` is `p - k`, and the entry there is unread. -/
theorem unreadIdxs_get_spec (es : List Entry) :
    ∀ (k p : Nat), (unreadIdxs es).get? k = some p →
      countReadTake es (p + 1) = p - k ∧ k ≤ p ∧ p < es.length ∧
      (es.getD p dEntry).is_read = false := by
  induction es with
  | nil => intro k p h; simp [unreadIdxs] at h
  | cons e rest ih =>
    intro k p h
    by_cases hr : e.is_read
    · rw [show unreadIdxs (e :: rest) = (unreadIdxs rest).map (· + 1) by
            simp [unreadIdxs, hr], List.get?_map] at h
      cases hg : (unreadIdxs rest).get? k with
      | none => rw [hg] at h; simp at h
      | some p' =>
        rw [hg] at h
        simp at h
        obtain ⟨hc, hkp, hplen, hpu⟩ := ih k p' hg
        have hp : p = p' + 1 := by omega
        subst hp
        refine ⟨?_, by omega, by simp; omega, by simpa using hpu⟩
        rw [show countReadTake (e :: rest) (p' + 1 + 1) =
              (if e.is_read then 1 else 0) + countReadTake rest (p' + 1) by
              simp [countReadTake, List.filter]
              split <;> simp [hr] at * <;> omega]
        rw [if_pos hr, hc]
        omega
    · rw [show unreadIdxs (e :: rest) = 0 :: (unreadIdxs rest).map (· + 1) by
            simp [unreadIdxs, hr]] at h
      cases k with
      | zero =>
        simp at h
        subst h
        refine ⟨?_, by omega, by simp, by simpa using hr⟩
        simp [countReadTake, List.take, List.filter, hr]
      | succ k' =>
        rw [show (0 :: (unreadIdxs rest).map (· + 1)).get? (k' + 1) =
              ((unreadIdxs rest).map (· + 1)).get? k' from rfl,
            List.get?_map] at h
        cases hg : (unreadIdxs rest).get? k' with
        | none => rw [hg] at h; simp at h
        | some p' =>
          rw [hg] at h
          simp at h
          obtain ⟨hc, hkp, hplen, hpu⟩ := ih k' p' hg
          have hp : p = p' + 1 := by omega
          subst hp
          refine ⟨?_, by omega, by simp; omega, by simpa using hpu⟩
          rw [show countReadTake (e :: rest) (p' + 1 + 1) =
                (if e.is_read then 1 else 0) + countReadTake rest (p' + 1) by
                simp [countReadTake, List.filter]
                split <;> simp [hr] at * <;> omega]
          rw [if_neg hr, hc]
          omega

/-- Every unread backing position appears in `unreadIdxs`. -/
theorem unreadIdxs_mem (es : List Entry) :
    ∀ p, p < es.length → (es.getD p dEntry).is_read = false →
      p ∈ unreadIdxs es := by
  induction es with
  | nil => intro p h; simp at h
  | cons e rest ih =>
    intro p hplen hpu
    cases p with
    | zero =>
      have hr : ¬ e.is_read := by simpa using hpu
      simp [unreadIdxs, hr]
    | succ p' =>
      have hmem := ih p' (by simpa using hplen) (by simpa using hpu)
      by_cases hr : e.is_read <;> simp [unreadIdxs, hr] <;> exact hmem

/-- The show-read → hide-read shift maps the `k`-th unread position back to
`k`. -/
theorem hideShift_spec (es : List Entry) (k p : Nat)
    (h : (unreadIdxs es).get? k = some p) :
    hideShift es (p : Int) = some (k : Int) := by
  obtain ⟨hc, hkp, hplen, _⟩ := unreadIdxs_get_spec es k p h
  unfold hideShift
  rw [if_neg (by omega), if_neg (by omega)]
  have ht : ((p : Int)).toNat = p := by omega
  rw [ht, hc]
  congr 1
  omega

theorem get?_some_lt {α : Type} (l : List α) (n : Nat) (a : α)
    (h : l.get? n = some a) : n < l.length := by
  induction l generalizing n with
  | nil => simp at h
  | cons x xs ih =>
    cases n with
    | zero => simp
    | succ m => simpa using ih m (by simpa using h)

/-- `__getitem__` only inspects the visible projection and the backing
entries. -/
theorem getEntryAt_congr (a b : ECScreen) (i : Int)
    (hv : a.visible = b.visible) (he : a.entries = b.entries) :
    getEntryAt a i = getEntryAt b i := by
  unfold getEntryAt visEntry
  rw [hv, he]

/-- Mounting a freshly built screen with an in-bounds cursor keeps the
cursor and the projection. -/
theorem highlight_build (es : List Entry) (d : Bool) (i : Int)
    (h0 : 0 ≤ i) (h1 : i < ((visibleIdxs es d).length : Int)) :
    (highlight_current (ECScreen.build es d i)).idx = i ∧
    (highlight_current (ECScreen.build es d i)).visible = visibleIdxs es d ∧
    (highlight_current (ECScreen.build es d i)).entries = es ∧
    (highlight_current (ECScreen.build es d i)).display_read = d := by
  have hw := build_widgets_length es d i
  have hv : (ECScreen.build es d i).visible = visibleIdxs es d := rfl
  have hlen : (ECScreen.build es d i).widgets.length = (visibleIdxs es d).length := by
    rw [hw, hv]
  have hidx : (ECScreen.build es d i).idx = i := rfl
  have hf := highlight_frame (ECScreen.build es d i)
  refine ⟨?_, hf.1, hf.2.1, hf.2.2.1⟩
  rw [← hidx]
  exact highlight_idx_in (ECScreen.build es d i) (by omega) (by omega) (by omega)

/-! ## C6: double filter toggle -/

/-- C6 (amended).  For any collection, filter direction and valid navigator
position whose current entry is unread (in hide-read mode the current entry
is always unread; in show-read mode this is the extra hypothesis), toggling
the read-visibility filter twice with no other mutation restores the same
filter, the same visible projection, the same `currentIndex`, and the same
logical current entry.  When the show-read cursor sits on a *read* entry the
double toggle instead moves the cursor to a nearby unread entry (see the
counterexample). -/
theorem toggle_read_restore (es : List Entry) (d : Bool) (k : Nat)
    (hk : k < (visibleIdxs es d).length)
    (hunread : (es.getD ((visibleIdxs es d).getD k 0) dEntry).is_read = false) :
    ∃ s₂, (toggle_read (ECScreen.build es d (k : Int))).bind toggle_read = some s₂ ∧
      s₂.display_read = d ∧ s₂.visible = visibleIdxs es d ∧ s₂.idx = (k : Int) ∧
      getEntryAt s₂ (k : Int) = getEntryAt (ECScreen.build es d (k : Int)) (k : Int) := by
  cases d
  · -- hide-read start
    have hvis : visibleIdxs es false = unreadIdxs es := by simp [visibleIdxs]
    have hk' : k < (unreadIdxs es).length := by rw [← hvis]; exact hk
    have hget : (unreadIdxs es).get? k = some ((unreadIdxs es).getD k 0) :=
      get?_getD _ k 0 hk'
    set p := (unreadIdxs es).getD k 0 with hp
    obtain ⟨hc, hkp, hplen, hpu⟩ := unreadIdxs_get_spec es k p hget
    have hshow : showLoopGo es 0 (k : Int) = some (p : Int) := by
      unfold showLoopGo
      rw [show (k : Int) = 0 + (k : Int) by ring,
        showLoopFuel_spec (es.length + 1) es (by omega) k 0, hget]
      simp
    have ht1 : toggle_read (ECScreen.build es false (k : Int)) =
        some (highlight_current (ECScreen.build es true (p : Int))) := by
      simp only [toggle_read,
        show (ECScreen.build es false (k : Int)).display_read = false from rfl,
        show (ECScreen.build es false (k : Int)).entries = es from rfl,
        show (ECScreen.build es false (k : Int)).idx = (k : Int) from rfl,
        Bool.false_eq_true, if_false, hshow, Bool.not_false]
    have hb1 := highlight_build es true (p : Int) (by omega)
      (by simp [visibleIdxs]; omega)
    have ht2 : toggle_read (highlight_current (ECScreen.build es true (p : Int))) =
        some (highlight_current (ECScreen.build es false (k : Int))) := by
      simp only [toggle_read, hb1.2.2.2, hb1.2.2.1, hb1.1, if_true,
        Bool.not_true, hideShift_spec es k p hget]
    have hb2 := highlight_build es false (k : Int) (by omega)
      (by rw [hvis]; omega)
    refine ⟨_, ?_, hb2.2.2.2, hb2.2.1, hb2.1, ?_⟩
    · rw [ht1, Option.some_bind, ht2]
    · exact getEntryAt_congr _ _ (k : Int) hb2.2.1 hb2.2.2.1
  · -- show-read start
    have hvis : visibleIdxs es true = List.range es.length := by simp [visibleIdxs]
    have hkN : k < es.length := by
      have := hk
      rw [hvis] at this
      simpa using this
    have hgd : (visibleIdxs es true).getD k 0 = k := by
      have h1 := get?_getD (visibleIdxs es true) k 0 hk
      rw [hvis, List.get?_range hkN] at h1
      exact (Option.some.injEq _ _).mp h1.symm
    have hunread' : (es.getD k dEntry).is_read = false := by
      rw [hgd] at hunread
      exact hunread
    have hmem := unreadIdxs_mem es k hkN hunread'
    obtain ⟨n, hn⟩ := List.get_of_mem hmem
    have hget : (unreadIdxs es).get? n.1 = some k := by
      rw [List.get?_eq_get n.2]
      exact congrArg some (by simpa using hn)
    obtain ⟨hc, hkp, _, _⟩ := unreadIdxs_get_spec es n.1 k hget
    have hr' : n.1 < (unreadIdxs es).length := n.2
    have ht1 : toggle_read (ECScreen.build es true (k : Int)) =
        some (highlight_current (ECScreen.build es false (n.1 : Int))) := by
      simp only [toggle_read,
        show (ECScreen.build es true (k : Int)).display_read = true from rfl,
        show (ECScreen.build es true (k : Int)).entries = es from rfl,
        show (ECScreen.build es true (k : Int)).idx = (k : Int) from rfl,
        if_true, hideShift_spec es n.1 k hget, Bool.not_true]
    have hb1 := highlight_build es false (n.1 : Int) (by omega)
      (by simp only [visibleIdxs, Bool.false_eq_true, if_false]; omega)
    have hshow : showLoopGo es 0 (n.1 : Int) = some (k : Int) := by
      unfold showLoopGo
      rw [show (n.1 : Int) = 0 + (n.1 : Int) by ring,
        showLoopFuel_spec (es.length + 1) es (by omega) n.1 0, hget]
      simp
    have ht2 : toggle_read (highlight_current (ECScreen.build es false (n.1 : Int))) =
        some (highlight_current (ECScreen.build es true (k : Int))) := by
      simp only [toggle_read, hb1.2.2.2, hb1.2.2.1, hb1.1, Bool.false_eq_true,
        if_false, Bool.not_false, hshow]
    have hb2 := highlight_build es true (k : Int) (by omega)
      (by rw [hvis]; simp; omega)
    refine ⟨_, ?_, hb2.2.2.2, hb2.2.1, hb2.1, ?_⟩
    · rw [ht1, Option.some_bind, ht2]
    · exact getEntryAt_congr _ _ (k : Int) hb2.2.1 hb2.2.2.1

/-- Witness for C6: over `[unread, read, unread]` in hide-read mode with the
cursor on the second unread entry, a double toggle restores the filter, the
projection, the index and the current entry. -/
theorem toggle_read_restore_w :
    ∃ s₂, (toggle_read (ECScreen.build esNav false (1 : Nat))).bind toggle_read
        = some s₂ ∧
      s₂.display_read = false ∧ s₂.visible = visibleIdxs esNav false ∧
      s₂.idx = ((1 : Nat) : Int) ∧
      getEntryAt s₂ ((1 : Nat) : Int) =
        getEntryAt (ECScreen.build esNav false (1 : Nat)) ((1 : Nat) : Int) :=
  toggle_read_restore esNav false 1 (by decide) (by decide)

/-- Counterexample to C6 as stated: in show-read mode over `[read, unread]`
with the cursor on the read entry (index 0), toggling the filter twice
returns to show-read with the same visible set but with the cursor at index
1 on the *unread* entry — the currentIndex no longer points at the read
entry it pointed at before the two toggles. -/
theorem toggle_read_restore_cex :
    ((toggle_read (ECScreen.build esRU true 0)).bind toggle_read).map
        (fun s₂ => (s₂.idx, s₂.visible, getEntryAt s₂ s₂.idx)) =
      some (1, [0, 1], some (mkU "u")) ∧
    getEntryAt (ECScreen.build esRU true 0) (ECScreen.build esRU true 0).idx =
      some (mkR "r") :=
  ⟨by decide, by decide⟩

end Junefeed
